import Mathlib

/-!
Verification development for the AITools web console (streaming response
reassembly, turn assembly, relay, conversation store, session guard).

Shallow embedding conventions:
  * JavaScript strings are modelled as `List Char`; raw byte chunks as
    `List Nat` (each entry < 256).
  * JSON values are modelled by the inductive `Json`; JavaScript truthiness
    of a field access (`data.text` etc.) is modelled by `truthyO` applied to
    an optional field lookup (a missing key is `undefined`, hence falsy).
  * The client stream parser (`handleGenerateStream` in
    frontend/components/Playground.tsx) is embedded as a state machine over
    lines; `JSON.parse` is abstracted as a `ParseFn` oracle where theorems
    are parametric, and instantiated with the executable `jsonParse` model
    for concrete evaluations.
-/

namespace AITools

/-- JSON values.  Numbers are kept as their source lexeme (the wire protocol
of this system never carries numeric payloads, so no numeric semantics is
needed beyond truthiness). -/
inductive Json where
  | null : Json
  | bool (b : Bool) : Json
  | num (lexeme : List Char) : Json
  | str (s : List Char) : Json
  | arr (elems : List Json) : Json
  | obj (fields : List (List Char × Json)) : Json

/-- JavaScript truthiness of a JSON value.  A number lexeme denotes zero
iff it has no nonzero digit (floating-point underflow is not modelled; the
wire records of this system carry no numbers). -/
def truthy : Json → Bool
  | .null => false
  | .bool b => b
  | .num lexeme => lexeme.any (fun c => ("123456789").data.contains c)
  | .str s => !s.isEmpty
  | .arr _ => true
  | .obj _ => true

/-- Field lookup on a JSON object; `none` models JavaScript `undefined`
(missing key, or access on a non-object). -/
def jGet : Json → List Char → Option Json
  | .obj fields, k =>
    match fields.find? (fun f => f.fst = k) with
    | some f => some f.snd
    | none => none
  | _, _ => none

/-- Truthiness of an optional JSON value (`undefined` is falsy). -/
def truthyO : Option Json → Bool
  | some v => truthy v
  | none => false

/-- JavaScript `a || b` on an optional field value with a fallback. -/
def jsOrO (a : Option Json) (b : Json) : Json :=
  match a with
  | some v => if truthy v then v else b
  | none => b

/-- JavaScript `String(v)` coercion, to the precision the embedding needs
(string payloads are returned verbatim; other shapes use their standard JS
renderings, with number lexemes kept unnormalised). -/
def jsToString : Json → List Char
  | .null => ("null").data
  | .bool true => ("true").data
  | .bool false => ("false").data
  | .num lexeme => lexeme
  | .str s => s
  | .arr _ => ("").data
  | .obj _ => ("[object Object]").data

/-- The field value that a truthy lookup found (defaulting to `null`,
unreachable when guarded by `truthyO`). -/
def jGetD (j : Json) (k : List Char) : Json :=
  (jGet j k).getD Json.null

/-- Outcome of one `JSON.parse` attempt.  `fail retryable msg` models a
thrown `SyntaxError`; `retryable` is the client code predicate
`e.message.includes('Unterminated') || e.message.includes('Unexpected')`
already evaluated on that message. -/
inductive ParseOutcome where
  | ok (j : Json)
  | fail (retryable : Bool) (msg : List Char)

/-- Whether a parse attempt succeeded. -/
def ParseOutcome.isOk : ParseOutcome → Bool
  | .ok _ => true
  | .fail _ _ => false

/-- Abstraction of `JSON.parse` as used by the client framer. -/
def ParseFn : Type := List Char → ParseOutcome

/-- Protocol events emitted by the client stream parser: the callback
invocations `onThinking`, `onChunk` (text) and `onImage`, each carrying the
JSON value passed to the callback. -/
inductive Ev where
  | thinking (v : Json)
  | text (v : Json)
  | image (v : Json)

/-- How the client stream parser finished:
  * `completed`: a record with truthy `done` was processed (`onComplete` ran);
  * `closedWithoutDone`: the transport closed and the parser returned
    normally without `onComplete` and without throwing;
  * `errored msg`: the parser threw out of `handleGenerateStream` with the
    given error message (reaching the caller's catch block). -/
inductive FrOutcome where
  | completed
  | closedWithoutDone
  | errored (msg : List Char)

/-- Mutable core of the parser loop: `cur` is `currentDataLine`, `events`
the callback invocations so far, `halt` records that the function already
returned (a `done` record was seen). -/
structure FrCore where
  cur : List Char
  events : List Ev
  halt : Bool

/-- Full parser state: `buffer` holds the partial line carried across
chunks. -/
structure FrState where
  buffer : List Char
  core : FrCore

/-- Final output of one streaming session. -/
structure FrOutput where
  events : List Ev
  outcome : FrOutcome

/-- The wire prefix `"data: "`. -/
def dataMarker : List Char := ("data: ").data

/-- `line.startsWith('data: ')`. -/
def isDataLine (line : List Char) : Bool :=
  line.take 6 = dataMarker

def keyDone : List Char := ("done").data
def keyError : List Char := ("error").data
def keyThinking : List Char := ("thinking").data
def keyText : List Char := ("text").data
def keyImage : List Char := ("image").data
def keyMessage : List Char := ("message").data
def keyData : List Char := ("data").data
def keyMimeType : List Char := ("mimeType").data

/-- Default error message `'生成失败'` used by the client. -/
def genFailMsg : List Char := ("生成失败").data

/-- Callback invocations performed for one successfully parsed record that
is neither `done` nor `error`.  In the `data:`-line branch the `thinking`
callback fires (`withThinking = true`); in the continuation-line branch and
in the end-of-stream leftover branch the code only logs thinking without
invoking the callback (`withThinking = false`). -/
def evsOfRecord (withThinking : Bool) (j : Json) : List Ev :=
  (if withThinking && truthyO (jGet j keyThinking) then [Ev.thinking (jGetD j keyThinking)] else [])
    ++ (if truthyO (jGet j keyText) then [Ev.text (jGetD j keyText)] else [])
    ++ (if truthyO (jGet j keyImage) then [Ev.image (jGetD j keyImage)] else [])

/-- Handling of a successfully parsed record inside the streaming loop.
`currentDataLine` is reset; a truthy `done` returns from the function; a
truthy `error` builds and throws an `Error` object, but that throw happens
inside the same `try` block and its own `catch` swallows it (the thrown
object is not a `SyntaxError`), merely resetting `currentDataLine`, so no
event is emitted and the loop continues. -/
def handleParsedRecord (withThinking : Bool) (j : Json) (st : FrCore) : FrCore :=
  if truthyO (jGet j keyDone) then
    { st with cur := [], halt := true }
  else if truthyO (jGet j keyError) then
    { st with cur := [] }
  else
    { st with cur := [], events := st.events ++ evsOfRecord withThinking j }

/-- Processing of a line starting with `data: `: the payload after the
marker is appended to `currentDataLine` and a parse is attempted.  On a
retryable `SyntaxError` (message containing `Unterminated` or `Unexpected`)
the accumulation is kept; on any other failure it is reset. -/
def processDataLine (p : ParseFn) (payload : List Char) (st : FrCore) : FrCore :=
  let cur2 := st.cur ++ payload
  match p cur2 with
  | .ok j => handleParsedRecord true j st
  | .fail retryable _ =>
    if retryable then { st with cur := cur2 } else { st with cur := [] }

/-- Processing of a non-`data:` line while `currentDataLine` is non-empty:
the line is appended after a newline and a parse is attempted; any
`SyntaxError` keeps accumulating (only non-`SyntaxError` exceptions reset,
and `JSON.parse` throws nothing else). -/
def processContLine (p : ParseFn) (line : List Char) (st : FrCore) : FrCore :=
  let cur2 := st.cur ++ '\n' :: line
  match p cur2 with
  | .ok j => handleParsedRecord false j st
  | .fail _ _ => { st with cur := cur2 }

/-- Processing of one complete line.  After the function has returned
(`halt`) no further line is processed.  A non-`data:` line with empty
`currentDataLine` is ignored (this is the heartbeat/blank-line path). -/
def processLine (p : ParseFn) (st : FrCore) (line : List Char) : FrCore :=
  if st.halt then st
  else if isDataLine line then processDataLine p (line.drop 6) st
  else if st.cur.isEmpty then st
  else processContLine p line st

/-- Processing of a list of complete lines in order. -/
def processLines (p : ParseFn) (st : FrCore) (lines : List (List Char)) : FrCore :=
  lines.foldl (processLine p) st

/-- Splits a character stream into the complete (newline-terminated) lines
and the trailing partial line, exactly as the `while (buffer.includes('\n'))`
loop consumes the buffer. -/
def splitOnNl : List Char → List (List Char) × List Char
  | [] => ([], [])
  | c :: cs =>
    if c = '\n' then
      let r := splitOnNl cs
      ([] :: r.fst, r.snd)
    else
      match splitOnNl cs with
      | ([], rest) => ([], c :: rest)
      | (l :: ls, rest) => ((c :: l) :: ls, rest)

/-- One iteration of the reader loop: the decoded chunk is appended to the
buffer and all complete lines now in the buffer are processed. -/
def feedChunk (p : ParseFn) (st : FrState) (chunk : List Char) : FrState :=
  let r := splitOnNl (st.buffer ++ chunk)
  ⟨r.snd, processLines p st.core r.fst⟩

/-- End-of-stream handling.  If the function already returned on `done`,
nothing more happens.  Otherwise the trailing partial line left in `buffer`
is discarded (the source never processes it), and a non-empty
`currentDataLine` gets one final parse: a `done` record completes; an
`error` record throws an `Error` that the local catch rethrows unless its
message equals `'生成失败'`; any other record fires the text/image callbacks
(not thinking); a parse failure rethrows the `SyntaxError` itself, the same
message comparison applying (real `JSON.parse` messages never equal it). -/
def finalizeFramer (p : ParseFn) (st : FrState) : FrOutput :=
  if st.core.halt then ⟨st.core.events, .completed⟩
  else if st.core.cur.isEmpty then ⟨st.core.events, .closedWithoutDone⟩
  else
    match p st.core.cur with
    | .ok j =>
      if truthyO (jGet j keyDone) then ⟨st.core.events, .completed⟩
      else if truthyO (jGet j keyError) then
        let m := jsToString (jsOrO (jGet j keyMessage) (jsOrO (jGet j keyError) (.str genFailMsg)))
        if m = genFailMsg then ⟨st.core.events, .closedWithoutDone⟩
        else ⟨st.core.events, .errored m⟩
      else ⟨st.core.events ++ evsOfRecord false j, .closedWithoutDone⟩
    | .fail _ msg =>
      if msg = genFailMsg then ⟨st.core.events, .closedWithoutDone⟩
      else ⟨st.core.events, .errored msg⟩

/-- Initial parser state. -/
def initFrState : FrState := ⟨[], [], [], false⟩

/-- The whole client stream parser run on a sequence of decoded text
chunks. -/
def runFramerChunks (p : ParseFn) (chunks : List (List Char)) : FrOutput :=
  finalizeFramer p (chunks.foldl (feedChunk p) initFrState)

/-! ### Concrete model of `JSON.parse` (V8-style error classification)

The client's retry logic depends only on whether the thrown `SyntaxError`
message contains `Unterminated` or `Unexpected`; the kinds below carry the
corresponding V8 message texts.  Leading-zero rejection and floating-point
numeric semantics are not modelled (the wire records of this system carry
no numbers). -/

inductive PErr where
  | unexpectedEnd
  | unexpectedToken (c : Char)
  | trailingChar (c : Char)
  | unterminatedString
  | badEscape
  | badUnicodeEscape
  | badControl
  | noNumberAfterMinus
  | unterminatedFractional
  | exponentMissing
deriving DecidableEq

/-- Whether the V8 message for this error contains `Unterminated` or
`Unexpected` (the client retry predicate). -/
def PErr.retryable : PErr → Bool
  | .unexpectedEnd | .unexpectedToken _ | .trailingChar _
  | .unterminatedString | .unterminatedFractional => true
  | .badEscape | .badUnicodeEscape | .badControl
  | .noNumberAfterMinus | .exponentMissing => false

/-- The V8 `SyntaxError` message text. -/
def PErr.message : PErr → List Char
  | .unexpectedEnd => ("Unexpected end of JSON input").data
  | .unexpectedToken c => ("Unexpected token ").data ++ [c] ++ (" in JSON").data
  | .trailingChar _ => ("Unexpected non-whitespace character after JSON").data
  | .unterminatedString => ("Unterminated string in JSON").data
  | .badEscape => ("Bad escaped character in JSON").data
  | .badUnicodeEscape => ("Bad Unicode escape in JSON").data
  | .badControl => ("Bad control character in string literal in JSON").data
  | .noNumberAfterMinus => ("No number after minus sign in JSON").data
  | .unterminatedFractional => ("Unterminated fractional number in JSON").data
  | .exponentMissing => ("Exponent part is missing a number in JSON").data

/-- JSON insignificant whitespace. -/
def isJsonWs (c : Char) : Bool :=
  c = ' ' || c = '\t' || c = '\n' || c = '\r'

def skipJsonWs : List Char → List Char
  | [] => []
  | c :: cs => if isJsonWs c then skipJsonWs cs else c :: cs

def isDecDigit (c : Char) : Bool :=
  '0' ≤ c && c ≤ '9'

def isHexDigitC (c : Char) : Bool :=
  isDecDigit c || ('a' ≤ c && c ≤ 'f') || ('A' ≤ c && c ≤ 'F')

def hexVal (c : Char) : Nat :=
  if isDecDigit c then c.toNat - 48
  else if 'a' ≤ c && c ≤ 'f' then c.toNat - 87
  else if 'A' ≤ c && c ≤ 'F' then c.toNat - 55
  else 0

/-- Single-character escape map of JSON strings. -/
def escMap (c : Char) : Option Char :=
  if c = '"' then some '"'
  else if c = '\\' then some '\\'
  else if c = '/' then some '/'
  else if c = 'b' then some '\x08'
  else if c = 'f' then some '\x0c'
  else if c = 'n' then some '\n'
  else if c = 'r' then some '\r'
  else if c = 't' then some '\t'
  else none

/-- Parses the body of a JSON string after the opening quote, returning the
decoded characters and the remaining input. -/
def parseStringBody : List Char → Except PErr (List Char × List Char)
  | [] => .error .unterminatedString
  | c :: cs =>
    if c = '"' then .ok ([], cs)
    else if c = '\\' then
      match cs with
      | [] => .error .unterminatedString
      | e :: cs2 =>
        if e = 'u' then
          match cs2 with
          | h1 :: h2 :: h3 :: h4 :: cs3 =>
            if isHexDigitC h1 && isHexDigitC h2 && isHexDigitC h3 && isHexDigitC h4 then
              match parseStringBody cs3 with
              | .ok (s, rest) =>
                .ok (Char.ofNat (((hexVal h1 * 16 + hexVal h2) * 16 + hexVal h3) * 16 + hexVal h4) :: s, rest)
              | .error er => .error er
            else .error .badUnicodeEscape
          | _ => .error .unterminatedString
        else
          match escMap e with
          | some ec =>
            match parseStringBody cs2 with
            | .ok (s, rest) => .ok (ec :: s, rest)
            | .error er => .error er
          | none => .error .badEscape
    else if c.toNat < 32 then .error .badControl
    else
      match parseStringBody cs with
      | .ok (s, rest) => .ok (c :: s, rest)
      | .error er => .error er

def takeDigits : List Char → List Char × List Char
  | [] => ([], [])
  | c :: cs =>
    if isDecDigit c then
      let r := takeDigits cs
      (c :: r.fst, r.snd)
    else ([], c :: cs)

/-- Parses a JSON number lexeme (integer part, optional fraction, optional
exponent), returning the lexeme and the remaining input. -/
def parseNumberLex (input : List Char) : Except PErr (List Char × List Char) :=
  let sign : List Char × List Char :=
    match input with
    | '-' :: r => (['-'], r)
    | r => ([], r)
  let intPart := takeDigits sign.snd
  if intPart.fst.isEmpty then .error .noNumberAfterMinus
  else
    let fr : Except PErr (List Char × List Char) :=
      match intPart.snd with
      | '.' :: r2 =>
        let fd := takeDigits r2
        if fd.fst.isEmpty then .error .unterminatedFractional
        else .ok ('.' :: fd.fst, fd.snd)
      | r2 => .ok ([], r2)
    match fr with
    | .error er => .error er
    | .ok (fracLex, rest2) =>
      match rest2 with
      | e :: r3 =>
        if e = 'e' || e = 'E' then
          let es : List Char × List Char :=
            match r3 with
            | '+' :: r4 => (['+'], r4)
            | '-' :: r4 => (['-'], r4)
            | r4 => ([], r4)
          let ed := takeDigits es.snd
          if ed.fst.isEmpty then .error .exponentMissing
          else .ok (sign.fst ++ intPart.fst ++ fracLex ++ e :: es.fst ++ ed.fst, ed.snd)
        else .ok (sign.fst ++ intPart.fst ++ fracLex, rest2)
      | [] => .ok (sign.fst ++ intPart.fst ++ fracLex, [])

/-- Attempts to consume the literal `lit`; on mismatch reports end-of-input
or the offending character. -/
def dropLit (lit : List Char) (s : List Char) : Except PErr (List Char) :=
  match lit, s with
  | [], rest => .ok rest
  | _ :: _, [] => .error .unexpectedEnd
  | c :: cs, d :: ds => if c = d then dropLit cs ds else .error (.unexpectedToken d)

mutual

/-- Recursive-descent JSON value parser; the fuel bounds the recursion and
is chosen large enough (relative to input length) never to run out on the
inputs evaluated in this development. -/
def parseValue : Nat → List Char → Except PErr (Json × List Char)
  | 0, _ => .error .unexpectedEnd
  | fuel + 1, input =>
    match skipJsonWs input with
    | [] => .error .unexpectedEnd
    | c :: cs =>
      if c = '"' then
        match parseStringBody cs with
        | .ok (s, rest) => .ok (.str s, rest)
        | .error er => .error er
      else if c = '\x7b' then
        match skipJsonWs cs with
        | '\x7d' :: rest => .ok (.obj [], rest)
        | rest => parseObjRest fuel rest []
      else if c = '[' then
        match skipJsonWs cs with
        | ']' :: rest => .ok (.arr [], rest)
        | rest => parseArrRest fuel rest []
      else if c = 't' then
        match dropLit (("rue").data) cs with
        | .ok rest => .ok (.bool true, rest)
        | .error er => .error er
      else if c = 'f' then
        match dropLit (("alse").data) cs with
        | .ok rest => .ok (.bool false, rest)
        | .error er => .error er
      else if c = 'n' then
        match dropLit (("ull").data) cs with
        | .ok rest => .ok (.null, rest)
        | .error er => .error er
      else if c = '-' || isDecDigit c then
        match parseNumberLex (c :: cs) with
        | .ok (lex, rest) => .ok (.num lex, rest)
        | .error er => .error er
      else .error (.unexpectedToken c)

/-- Parses the members of an object after `\x7b` (non-empty case), with the
already-parsed members accumulated in order. -/
def parseObjRest : Nat → List Char → List (List Char × Json) → Except PErr (Json × List Char)
  | 0, _, _ => .error .unexpectedEnd
  | fuel + 1, input, acc =>
    match skipJsonWs input with
    | [] => .error .unexpectedEnd
    | c :: cs =>
      if c = '"' then
        match parseStringBody cs with
        | .error er => .error er
        | .ok (k, rest) =>
          match skipJsonWs rest with
          | [] => .error .unexpectedEnd
          | c2 :: rest2 =>
            if c2 = ':' then
              match parseValue fuel rest2 with
              | .error er => .error er
              | .ok (v, rest3) =>
                match skipJsonWs rest3 with
                | [] => .error .unexpectedEnd
                | c3 :: rest4 =>
                  if c3 = ',' then parseObjRest fuel rest4 (acc ++ [(k, v)])
                  else if c3 = '\x7d' then .ok (.obj (acc ++ [(k, v)]), rest4)
                  else .error (.unexpectedToken c3)
            else .error (.unexpectedToken c2)
      else .error (.unexpectedToken c)

/-- Parses the elements of an array after `[` (non-empty case). -/
def parseArrRest : Nat → List Char → List Json → Except PErr (Json × List Char)
  | 0, _, _ => .error .unexpectedEnd
  | fuel + 1, input, acc =>
    match parseValue fuel input with
    | .error er => .error er
    | .ok (v, rest) =>
      match skipJsonWs rest with
      | [] => .error .unexpectedEnd
      | c :: rest2 =>
        if c = ',' then parseArrRest fuel rest2 (acc ++ [v])
        else if c = ']' then .ok (.arr (acc ++ [v]), rest2)
        else .error (.unexpectedToken c)

end

/-- The executable model of `JSON.parse`, in the `ParseFn` shape consumed
by the framer (trailing non-whitespace input after a complete value is a
retryable `Unexpected` error, as in V8). -/
def jsonParse : ParseFn := fun s =>
  match parseValue (2 * s.length + 8) s with
  | .ok (j, rest) =>
    match skipJsonWs rest with
    | [] => .ok j
    | c :: _ => .fail (PErr.trailingChar c).retryable (PErr.trailingChar c).message
  | .error er => .fail er.retryable er.message

/-! ### Per-chunk UTF-8 decoding (`TextDecoder.decode` without `stream: true`)

The client calls `decoder.decode(value)` on every chunk without the
streaming option, so each chunk is decoded as a complete, independent byte
sequence: a multi-byte character split across a chunk boundary produces
U+FFFD replacement characters. -/

def replChar : Char := '�'

def isContByte (b : Nat) : Bool := 0x80 ≤ b && b < 0xC0

/-- Valid second-byte range of a 3-byte sequence (excluding overlong forms
and surrogates, per the WHATWG decoder). -/
def valid3Second (lead b : Nat) : Bool :=
  if lead = 0xE0 then 0xA0 ≤ b && b ≤ 0xBF
  else if lead = 0xED then 0x80 ≤ b && b ≤ 0x9F
  else isContByte b

/-- Valid second-byte range of a 4-byte sequence. -/
def valid4Second (lead b : Nat) : Bool :=
  if lead = 0xF0 then 0x90 ≤ b && b ≤ 0xBF
  else if lead = 0xF4 then 0x80 ≤ b && b ≤ 0x8F
  else isContByte b

/-- UTF-8 decoding with U+FFFD replacement on malformed or truncated
sequences (code points are produced directly; the UTF-16 representation of
JavaScript strings is not distinguished here).  The fuel argument only
serves termination: every step consumes at least one byte, so a fuel equal
to the byte count (as supplied by `utf8Run`) is never exhausted. -/
def utf8RunF : Nat → List Nat → List Char
  | 0, _ => []
  | _, [] => []
  | fuel + 1, b :: bs =>
    if b < 0x80 then Char.ofNat b :: utf8RunF fuel bs
    else if 0xC2 ≤ b && b ≤ 0xDF then
      match bs with
      | [] => [replChar]
      | c1 :: bs2 =>
        if isContByte c1 then
          Char.ofNat ((b - 0xC0) * 0x40 + (c1 - 0x80)) :: utf8RunF fuel bs2
        else replChar :: utf8RunF fuel bs
    else if 0xE0 ≤ b && b ≤ 0xEF then
      match bs with
      | [] => [replChar]
      | c1 :: bs2 =>
        if valid3Second b c1 then
          match bs2 with
          | [] => [replChar]
          | c2 :: bs3 =>
            if isContByte c2 then
              Char.ofNat (((b - 0xE0) * 0x40 + (c1 - 0x80)) * 0x40 + (c2 - 0x80)) :: utf8RunF fuel bs3
            else replChar :: utf8RunF fuel bs2
        else replChar :: utf8RunF fuel bs
    else if 0xF0 ≤ b && b ≤ 0xF4 then
      match bs with
      | [] => [replChar]
      | c1 :: bs2 =>
        if valid4Second b c1 then
          match bs2 with
          | [] => [replChar]
          | c2 :: bs3 =>
            if isContByte c2 then
              match bs3 with
              | [] => [replChar]
              | c3 :: bs4 =>
                if isContByte c3 then
                  Char.ofNat ((((b - 0xF0) * 0x40 + (c1 - 0x80)) * 0x40 + (c2 - 0x80)) * 0x40 + (c3 - 0x80)) :: utf8RunF fuel bs4
                else replChar :: utf8RunF fuel bs3
            else replChar :: utf8RunF fuel bs2
        else replChar :: utf8RunF fuel bs
    else replChar :: utf8RunF fuel bs

def utf8Run (bs : List Nat) : List Char := utf8RunF bs.length bs

/-- One `TextDecoder.decode(value)` call: a fresh decode of the chunk,
removing a leading byte-order mark. -/
def decodeChunk (bs : List Nat) : List Char :=
  match bs with
  | 0xEF :: 0xBB :: 0xBF :: rest => utf8Run rest
  | _ => utf8Run bs

/-- The client stream parser run on raw byte chunks, each decoded
independently as the source does. -/
def runFramerBytes (p : ParseFn) (chunks : List (List Nat)) : FrOutput :=
  runFramerChunks p (chunks.map decodeChunk)

/-! ### Turn assembler (`handleSubmit` in MainContent, current revision)

The completion callback persists the assistant message only when at least
one accumulator is non-empty; the catch branch persists an error-derived
message.  When the stream parser returns without either completing or
throwing, nothing is persisted for the turn. -/

/-- JavaScript whitespace recognised by `String.prototype.trim`, to the
extent this development needs it. -/
def isJsWsChar (c : Char) : Bool :=
  c = ' ' || c = '\t' || c = '\n' || c = '\r' || c = '\x0b' || c = '\x0c'

/-- `s.trim()`. -/
def trimChars (s : List Char) : List Char :=
  ((s.dropWhile isJsWsChar).reverse.dropWhile isJsWsChar).reverse

/-- Accumulators of one in-progress assistant turn: `fullResponse`,
`fullThinking`, `responseImages`. -/
structure TAcc where
  text : List Char
  thinking : List Char
  images : List Json

/-- One callback invocation folded into the accumulators.  The image
callback drops payloads whose `data` or `mimeType` is falsy. -/
def foldEv (acc : TAcc) (e : Ev) : TAcc :=
  match e with
  | .text v => { acc with text := acc.text ++ jsToString v }
  | .thinking v => { acc with thinking := acc.thinking ++ jsToString v }
  | .image v =>
    if truthyO (jGet v keyData) && truthyO (jGet v keyMimeType) then
      { acc with images := acc.images ++ [v] }
    else acc

/-- What `handleSubmit` persists for the assistant turn. -/
inductive TurnOutcome where
  | noTurn
  | success (content : List Char) (images : List Json) (thinking : Option (List Char))
  | errorTurn (message : List Char)

def TurnOutcome.isSuccess : TurnOutcome → Bool
  | .success _ _ _ => true
  | _ => false

/-- Content of the persisted error message, `'❌ **错误**: ' + errorMessage`
(the optional code-block suffix carrying diagnostic detail is elided; no
claim inspects it). -/
def errorContentOf (msg : List Char) : List Char :=
  ("❌ **错误**: ").data ++ msg

/-- Folds a finished stream into the persisted assistant turn, following
the completion callback and the catch branch of `handleSubmit`. -/
def assembleSubmit (out : FrOutput) : TurnOutcome :=
  let acc := out.events.foldl foldEv ⟨[], [], []⟩
  match out.outcome with
  | .completed =>
    if !acc.text.isEmpty || !acc.images.isEmpty || !acc.thinking.isEmpty then
      .success acc.text acc.images
        (if !acc.thinking.isEmpty && !(trimChars acc.thinking).isEmpty then some acc.thinking else none)
    else .noTurn
  | .closedWithoutDone => .noTurn
  | .errored msg => .errorTurn (errorContentOf msg)

/-- End-to-end client behaviour for one generation: stream parsing followed
by turn assembly. -/
def clientRun (p : ParseFn) (chunks : List (List Char)) : TurnOutcome :=
  assembleSubmit (runFramerChunks p chunks)

/-! ### Backend image collection (`POST /api/generate/stream`, server.js)

Every inline-data part of the upstream stream is collected; a part flagged
`thought === true` first evicts all previously collected thinking images.
After the stream, the non-thinking images are sent if any exist, otherwise
the last thinking image. -/

/-- One inline image as collected by the relay. -/
structure BImg where
  data : List Char
  mime : List Char
deriving DecidableEq

/-- Collection step for one inline-data part; the Boolean is the part's
`thought === true` flag. -/
def collectStep (acc : List (BImg × Bool)) (part : BImg × Bool) : List (BImg × Bool) :=
  if part.snd then
    acc.filter (fun ib => !ib.snd) ++ [(part.fst, true)]
  else acc ++ [(part.fst, false)]

/-- The `collectedImages` array after the whole upstream stream. -/
def collectImages (parts : List (BImg × Bool)) : List (BImg × Bool) :=
  parts.foldl collectStep []

/-- The images actually written to the wire after the stream ends. -/
def imagesToSend (collected : List (BImg × Bool)) : List BImg :=
  let finals := (collected.filter (fun ib => !ib.snd)).map Prod.fst
  let thinks := (collected.filter (fun ib => ib.snd)).map Prod.fst
  if !finals.isEmpty then finals
  else
    match thinks.getLast? with
    | some t => [t]
    | none => []

/-- The JSON payload the client's image callback receives for one sent
image. -/
def imagePayload (i : BImg) : Json :=
  .obj [(keyData, .str i.data), (keyMimeType, .str i.mime)]

/-- Client-side image accumulation over received image payloads (the push
guard of the image callback). -/
def clientImages (payloads : List Json) : List Json :=
  payloads.foldl
    (fun acc v =>
      if truthyO (jGet v keyData) && truthyO (jGet v keyMimeType) then acc ++ [v] else acc)
    []

/-! ### Conversation transcript operations (Playground + MainContent)

`handleTruncateMessages` keeps the first `k+1` messages; the edit-resend
handler then updates the edited user message in place and regenerates with
the messages before the edited index as history. -/

inductive Role where
  | user
  | assistant
deriving DecidableEq

structure ImgData where
  data : List Char
  mimeType : List Char
deriving DecidableEq

/-- One message of a conversation (an absent `images` field is modelled as
the empty list). -/
structure Msg where
  role : Role
  content : List Char
  images : List ImgData
  thinking : Option (List Char)
deriving DecidableEq

/-- `handleTruncateMessages keepUntilIndex`: `messages.slice(0, keepUntilIndex + 1)`. -/
def handleTruncateMessages (msgs : List Msg) (keepUntilIndex : Nat) : List Msg :=
  msgs.take (keepUntilIndex + 1)

/-- `handleEditMessage`: replaces the content (and, when new images were
supplied, the images) of the user message at the given index. -/
def handleEditMessage (msgs : List Msg) (k : Nat) (newContent : List Char) (newImages : List ImgData) : List Msg :=
  match msgs.get? k with
  | some m =>
    if m.role = .user then
      msgs.set k
        { m with
          content := newContent
          images := if !newImages.isEmpty then newImages else m.images }
    else msgs
  | none => msgs

/-- Abstract result of one generation request, as observed by the caller of
`onGenerateStream`: the promise resolved after a completion callback that
persisted `m` (or persisted nothing, `completed none`), or it rejected with
an error message. -/
inductive GenOutcome where
  | completed (m : Option Msg)
  | failed (errMsg : List Char)

/-- The assistant message appended by the catch branch. -/
def errMsgOf (errMsg : List Char) : Msg :=
  ⟨.assistant, errorContentOf errMsg, [], none⟩

/-- Observable course of the edit-resend handler. -/
structure EditResendView where
  afterTruncate : List Msg
  afterEdit : List Msg
  requestPrompt : List Char
  requestHistory : List Msg
  finalTranscript : List Msg

/-- The edit-resend handler: truncate to `k+1` messages, update message `k`
with the trimmed edited content, issue the regeneration request with the
first `k` messages as history, then append whatever the generation outcome
persists. -/
def editResend (msgs : List Msg) (k : Nat) (newContent : List Char) (newImages : List ImgData)
    (out : GenOutcome) : EditResendView :=
  let t := handleTruncateMessages msgs k
  let e := handleEditMessage t k (trimChars newContent) newImages
  let final :=
    match out with
    | .completed (some m) => e ++ [m]
    | .completed none => e
    | .failed em => e ++ [errMsgOf em]
  ⟨t, e, trimChars newContent, msgs.take k, final⟩

/-! ### Session guard (login rate limiting, server.js) -/

def WINDOW_MS : Nat := 10 * 60 * 1000

def MAX_ATTEMPTS : Nat := 5

/-- `cleanExpiredAttempts`: keeps the failure timestamps still inside the
sliding window. -/
def cleanExpired (now : Nat) (attempts : List Nat) : List Nat :=
  attempts.filter (fun t => now - t < WINDOW_MS)

/-- `checkRateLimit` after the cleanup it performs. -/
def checkRateLimit (now : Nat) (attempts : List Nat) : Bool :=
  MAX_ATTEMPTS ≤ (cleanExpired now attempts).length

inductive LoginResult where
  | rateLimited (retryAfterSec : Nat)
  | badRequest
  | invalidCredentials
  | success
deriving DecidableEq

structure LoginOutcome where
  result : LoginResult
  attempts : List Nat
deriving DecidableEq

/-- The `POST /api/auth/login` handler over the failed-attempt state:
rate-limit check first (with `retryAfter` computed from the oldest retained
attempt), then field presence, then user lookup and password check; a
failure records the attempt, a success clears all attempts. -/
def loginModel (attempts : List Nat) (now : Nat)
    (hasName hasPass userFound passValid : Bool) : LoginOutcome :=
  let cleaned := cleanExpired now attempts
  if MAX_ATTEMPTS ≤ cleaned.length then
    let oldest := cleaned.headD 0
    ⟨.rateLimited ((WINDOW_MS - (now - oldest) + 999) / 1000), cleaned⟩
  else if !hasName || !hasPass then ⟨.badRequest, cleaned⟩
  else if !userFound then ⟨.invalidCredentials, cleaned ++ [now]⟩
  else if !passValid then ⟨.invalidCredentials, cleaned ++ [now]⟩
  else ⟨.success, []⟩

/-- The attempt state left by one failed login (wrong password) at time `t`. -/
def failedLoginAt (attempts : List Nat) (t : Nat) : List Nat :=
  (loginModel attempts t true true true false).attempts

/-! ### Conversation store (frontend/lib/indexedDB.ts)

`saveConversations` first reconciles the store with the new set (entries
absent from the new set are deleted, all entries of the new set are
upserted), so after the sync the stored records are exactly the saved set;
it then runs `cleanupOldConversations` when the total size exceeds the
budget, deleting in ascending `updatedAt` order until the total is back
within it.  The serialized size of a record is abstracted as its `size`
field. -/

structure Conv where
  id : Nat
  updatedAt : Nat
  size : Nat
deriving DecidableEq

def convTotalSize (l : List Conv) : Nat :=
  (l.map Conv.size).sum

/-- The ascending-`updatedAt` sort performed by `cleanupOldConversations`. -/
def sortByUpdatedAsc (l : List Conv) : List Conv :=
  l.insertionSort (fun a b => a.updatedAt ≤ b.updatedAt)

def MAX_STORAGE : Nat := 100 * 1024 * 1024

/-- The deletion loop of `cleanupOldConversations` over the ascending-sorted
records: stop as soon as the running total is within the budget, otherwise
delete the oldest record and continue. -/
def evict (maxSize : Nat) : List Conv → List Conv
  | [] => []
  | c :: rest =>
    if convTotalSize (c :: rest) ≤ maxSize then c :: rest
    else evict maxSize rest

/-- `saveConversations`: after the sync the store holds exactly `convs`;
cleanup runs only when the total exceeds the budget. -/
def saveConversationsModel (convs : List Conv) : List Conv :=
  if MAX_STORAGE < convTotalSize convs then evict MAX_STORAGE (sortByUpdatedAsc convs)
  else convs

/-! ### Relay proxy (`POST` route, REQUEST_TIMEOUT / AbortController)

The guard timer is armed before the upstream fetch and aborts it if the
upstream has not produced response headers in time; it is cleared the
moment the fetch resolves, after which the body streams to the client
unbounded. -/

def REQUEST_TIMEOUT : Nat := 5 * 60 * 1000

/-- Abstract timing/outcome behaviour of the upstream call: how long until
response headers are available, whether the status is ok, and how long the
body then takes to stream. -/
structure UpstreamBehavior where
  headersDelayMs : Nat
  ok : Bool
  status : Nat
  bodyDurationMs : Nat

inductive ProxyResult where
  | streamed (totalDurationMs : Nat)
  | httpJsonError (status : Nat)
deriving DecidableEq

/-- The proxy route: an `AbortError` (timer fired while awaiting headers)
yields an HTTP 504 JSON response; a non-ok upstream status is forwarded as
a JSON error; otherwise the timer is cleared and the upstream body is
returned as the streamed response, however long it runs. -/
def proxyPost (u : UpstreamBehavior) : ProxyResult :=
  if REQUEST_TIMEOUT ≤ u.headersDelayMs then .httpJsonError 504
  else if !u.ok then .httpJsonError u.status
  else .streamed (u.headersDelayMs + u.bodyDurationMs)

/-! ### Prompt submission (`handleSubmit` + `handleMessageSent`)

`handleSubmit` converts the attachments to base64 image entries, hands the
user message to `handleMessageSent` — which appends it to the transcript
and initiates the conversation save — and only then issues the streaming
generation request. -/

structure ConvRec where
  id : Nat
  title : List Char
  createdAt : Nat
  updatedAt : Nat
  messages : List Msg
deriving DecidableEq

structure PgState where
  conversations : List ConvRec
  currentId : Option Nat
  messages : List Msg
deriving DecidableEq

/-- Observable actions of the submission flow, in program order. -/
inductive Act where
  | append (m : Msg)
  | persist (convs : List ConvRec)
  | issueStreamRequest (prompt : List Char) (history : List Msg)
deriving DecidableEq

/-- The conversation-list update performed by `handleMessageSent`: the
current conversation gets the new transcript and timestamp, and a title
derived from the first user message when it was empty. -/
def updateConvs (convs : List ConvRec) (cid : Nat) (m : Msg) (updatedMessages : List Msg)
    (now : Nat) : List ConvRec :=
  convs.map fun c =>
    if c.id = cid then
      { c with
        messages := updatedMessages
        updatedAt := now
        title :=
          if c.messages.length = 0 && m.role = .user then
            if (m.content.take 30).isEmpty then ("新会话").data else m.content.take 30
          else c.title }
    else c

/-- `handleMessageSent`: appends the message and initiates the save; a
missing current conversation id makes it a no-op. -/
def handleMessageSentActs (st : PgState) (now : Nat) (m : Msg) : PgState × List Act :=
  match st.currentId with
  | none => (st, [])
  | some cid =>
    let updatedMessages := st.messages ++ [m]
    let updated := updateConvs st.conversations cid m updatedMessages now
    ({ st with messages := updatedMessages, conversations := updated },
      [.append m, .persist updated])

/-- One file attachment after the `FileReader` base64 conversion. -/
structure FileAtt where
  base64 : List Char
  mimeType : List Char
deriving DecidableEq

def fileToImg (f : FileAtt) : ImgData := ⟨f.base64, f.mimeType⟩

/-- The user message built by `handleSubmit`. -/
def submitUserMsg (prompt : List Char) (files : List FileAtt) : Msg :=
  ⟨.user, trimChars prompt, files.map fileToImg, none⟩

/-- The ordered action trace of one `handleSubmit` run, for a given
generation outcome.  An empty trimmed prompt aborts before any action. -/
def handleSubmitTrace (st : PgState) (now : Nat) (prompt : List Char) (files : List FileAtt)
    (out : GenOutcome) : List Act :=
  if (trimChars prompt).isEmpty then []
  else
    let userMsg := submitUserMsg prompt files
    let step1 := handleMessageSentActs st now userMsg
    let outActs :=
      match out with
      | .completed (some m) => (handleMessageSentActs step1.fst now m).snd
      | .completed none => []
      | .failed em => (handleMessageSentActs step1.fst now (errMsgOf em)).snd
    step1.snd ++ [Act.issueStreamRequest (trimChars prompt) st.messages] ++ outActs

/-! ### Heartbeat insertion -/

/-- A heartbeat/comment line as written by the relay
(`res.write(': heartbeat ...\n\n')`), or the blank line such a write also
contributes: empty, or starting with `:`. -/
def isHbLine (l : List Char) : Bool :=
  l.isEmpty || l.headD ' ' = ':'

/-- The relay's heartbeat comment line for timestamp `t`. -/
def heartbeatLine (t : Nat) : List Char :=
  (": heartbeat ").data ++ (Nat.repr t).data

/-- `HbInsert ls ls2` holds when `ls2` arises from the line sequence `ls`
by inserting comment/blank heartbeat lines at arbitrary positions. -/
inductive HbInsert : List (List Char) → List (List Char) → Prop
  | nil : HbInsert [] []
  | keep {xs ys : List (List Char)} (l : List Char) :
      HbInsert xs ys → HbInsert (l :: xs) (l :: ys)
  | ins {xs ys : List (List Char)} (h : List Char) :
      isHbLine h = true → HbInsert xs ys → HbInsert xs (h :: ys)

/-- A line is well formed for the parse oracle `p` when, if it is a
`data:` line at all, its payload parses on its own (the shape every record
actually written by the relay has). -/
def lineOkB (p : ParseFn) (l : List Char) : Bool :=
  !isDataLine l || (p (l.drop 6)).isOk

/-! ### Order instances for the eviction sort -/

instance : IsTotal Conv (fun a b => a.updatedAt ≤ b.updatedAt) :=
  ⟨fun a b => Nat.le_total a.updatedAt b.updatedAt⟩

instance : IsTrans Conv (fun a b => a.updatedAt ≤ b.updatedAt) :=
  ⟨fun _ _ _ hab hbc => Nat.le_trans hab hbc⟩

/-! ### Concrete wire fixtures used by counterexamples and witnesses -/

def asciiBytes (s : String) : List Nat :=
  s.data.map Char.toNat

/-- Bytes of the well-formed record sequence
`data: \x7b"text":"é"\x7d\n\ndata: \x7b"done":true\x7d\n\n`, with `é`
encoded as the UTF-8 pair `0xC3 0xA9`. -/
def cxFullBytes : List Nat :=
  asciiBytes ("data: \x7b\"text\":\"") ++ [0xC3, 0xA9]
    ++ asciiBytes ("\"\x7d\n\ndata: \x7b\"done\":true\x7d\n\n")

/-- The same bytes split in the middle of the two-byte character. -/
def cxBytesA : List Nat :=
  asciiBytes ("data: \x7b\"text\":\"") ++ [0xC3]

def cxBytesB : List Nat :=
  0xA9 :: asciiBytes ("\"\x7d\n\ndata: \x7b\"done\":true\x7d\n\n")

/-- One complete text record, then transport close without a done record. -/
def c2chunks : List (List Char) :=
  [("data: \x7b\"text\":\"partial\"\x7d\n\n").data]

/-- A whitespace-only thinking record followed by done. -/
def c9failChunks : List (List Char) :=
  [("data: \x7b\"thinking\":\" \"\x7d\n\ndata: \x7b\"done\":true\x7d\n\n").data]

/-- A done record with all accumulators empty. -/
def c9emptyDoneChunks : List (List Char) :=
  [("data: \x7b\"done\":true\x7d\n\n").data]

/-- Well-formed line sequence of one text record followed by a done
record. -/
def c8baseLines : List (List Char) :=
  [("data: \x7b\"text\":\"hi\"\x7d").data, [],
    ("data: \x7b\"done\":true\x7d").data, []]

/-- The same lines with heartbeat comment lines and a blank inserted ahead
of, inside, and after the records. -/
def c8insLines : List (List Char) :=
  [heartbeatLine 123, [],
    ("data: \x7b\"text\":\"hi\"\x7d").data, heartbeatLine 456, [],
    ("data: \x7b\"done\":true\x7d").data, [], heartbeatLine 789]

/-- Initial framer core state. -/
def initCore : FrCore := ⟨[], [], false⟩

/-- Concrete inline images for witnesses. -/
def imgA : BImg := ⟨("a").data, ("m").data⟩

def imgB : BImg := ⟨("b").data, ("m").data⟩

def imgC : BImg := ⟨("c").data, ("m").data⟩

/-! ## Theorems -/

/-- Decomposition of line splitting over concatenation: the complete lines
of `s ++ t` are the complete lines of `s` followed by those of the
remainder of `s` glued to `t`. -/
theorem splitOnNl_append (s t : List Char) :
    splitOnNl (s ++ t) =
      ((splitOnNl s).fst ++ (splitOnNl ((splitOnNl s).snd ++ t)).fst,
        (splitOnNl ((splitOnNl s).snd ++ t)).snd) := by
  induction s with
  | nil => simp [splitOnNl]
  | cons c cs ih =>
    by_cases hc : c = '\n'
    · subst hc
      simp [splitOnNl, ih]
    · cases hA : splitOnNl cs with
    | mk ls r =>
      rw [hA] at ih
      cases ls with
      | nil =>
        cases hB : splitOnNl (r ++ t) with
        | mk ls3 r3 =>
          rw [hB] at ih
          cases ls3 with
          | nil => simp [splitOnNl, hc, hA, hB, ih]
          | cons l3 ls4 => simp [splitOnNl, hc, hA, hB, ih]
      | cons l ls2 =>
        simp [splitOnNl, hc, hA, ih]

/-- Line processing distributes over concatenation of line lists. -/
theorem processLines_append (p : ParseFn) (st : FrCore) (ls1 ls2 : List (List Char)) :
    processLines p st (ls1 ++ ls2) = processLines p (processLines p st ls1) ls2 := by
  simp [processLines, List.foldl_append]

/-- Feeding two chunks in sequence is the same as feeding their
concatenation: the parser state is a function of the bytes seen, not of
the chunk boundaries. -/
theorem feedChunk_append (p : ParseFn) (st : FrState) (c1 c2 : List Char) :
    feedChunk p (feedChunk p st c1) c2 = feedChunk p st (c1 ++ c2) := by
  show (⟨(splitOnNl ((splitOnNl (st.buffer ++ c1)).snd ++ c2)).snd,
        processLines p (processLines p st.core (splitOnNl (st.buffer ++ c1)).fst)
          (splitOnNl ((splitOnNl (st.buffer ++ c1)).snd ++ c2)).fst⟩ : FrState)
      = ⟨(splitOnNl (st.buffer ++ (c1 ++ c2))).snd,
          processLines p st.core (splitOnNl (st.buffer ++ (c1 ++ c2))).fst⟩
  rw [← List.append_assoc, splitOnNl_append (st.buffer ++ c1) c2, processLines_append]

/-- Folding the reader loop over a non-empty chunk list equals one feed of
the concatenation. -/
theorem foldl_feedChunk_join (p : ParseFn) (c : List Char) (chunks : List (List Char)) :
    ∀ st : FrState,
      List.foldl (feedChunk p) st (c :: chunks) = feedChunk p st (c :: chunks).flatten := by
  induction chunks generalizing c with
  | nil => intro st; simp [List.flatten]
  | cons c2 rest ih =>
    intro st
    have h1 : List.foldl (feedChunk p) st (c :: c2 :: rest)
        = List.foldl (feedChunk p) (feedChunk p st c) (c2 :: rest) := rfl
    rw [h1, ih c2 (feedChunk p st c), feedChunk_append]
    simp [List.flatten]

/-- Claim C1 (amended): for every parse oracle and every way of splitting
the decoded character stream into chunks (that is, every byte split whose
boundaries fall on UTF-8 character boundaries), the client stream parser
produces exactly the same events and the same final outcome as when the
whole stream arrives in a single chunk. -/
theorem framer_chunk_invariance (p : ParseFn) (chunks : List (List Char)) :
    runFramerChunks p chunks = runFramerChunks p [chunks.flatten] := by
  cases chunks with
  | nil => rfl
  | cons c rest =>
    show finalizeFramer p (List.foldl (feedChunk p) initFrState (c :: rest))
        = finalizeFramer p (List.foldl (feedChunk p) initFrState [(c :: rest).flatten])
    rw [foldl_feedChunk_join]
    rfl

/-- Claim C1 (counterexample): the same well-formed wire bytes, split once
in the middle of the UTF-8 encoding of `é`, make the client parser emit a
different event sequence than the single-chunk delivery, because each chunk
is decoded by `decoder.decode(value)` without `stream: true` and the torn
character becomes replacement characters. -/
theorem framer_byte_split_counterexample :
    cxFullBytes = cxBytesA ++ cxBytesB
      ∧ runFramerBytes jsonParse [cxFullBytes] ≠ runFramerBytes jsonParse [cxBytesA, cxBytesB] := by
  constructor
  · rfl
  · intro h
    have h1 : runFramerBytes jsonParse [cxFullBytes]
        = ⟨[Ev.text (Json.str [Char.ofNat 0xE9])], .completed⟩ := rfl
    have h2 : runFramerBytes jsonParse [cxBytesA, cxBytesB]
        = ⟨[Ev.text (Json.str [replChar, replChar])], .completed⟩ := rfl
    rw [h1, h2] at h
    simp only [FrOutput.mk.injEq, List.cons.injEq, Ev.text.injEq, Json.str.injEq] at h
    exact absurd h.1.1 (by decide)

/-- Claim C2 (counterexample): when the transport closes after a complete
text record without a done record, the framer does not synthesize any error
event — its outcome is `closedWithoutDone`, not `errored` — and the
assembler persists nothing at all for the turn, rather than an
Error-derived assistant message. -/
theorem truncated_close_counterexample :
    runFramerChunks jsonParse c2chunks
        = ⟨[Ev.text (Json.str (("partial").data))], .closedWithoutDone⟩
      ∧ clientRun jsonParse c2chunks = .noTurn :=
  ⟨rfl, rfl⟩

/-- Claim C2 (amended): if the stream ends without a done record having
been processed, the turn is never persisted as a successful assistant
message; in particular, when the parser returns silently
(`closedWithoutDone`, the case of a close at a record boundary) nothing at
all is persisted for the turn. -/
theorem truncated_close_amended (p : ParseFn) (chunks : List (List Char))
    (h : (runFramerChunks p chunks).outcome ≠ .completed) :
    (clientRun p chunks).isSuccess = false
      ∧ ((runFramerChunks p chunks).outcome = .closedWithoutDone →
          clientRun p chunks = .noTurn) := by
  unfold clientRun assembleSubmit
  cases ho : (runFramerChunks p chunks).outcome with
  | completed => exact absurd ho h
  | closedWithoutDone => exact ⟨rfl, fun _ => rfl⟩
  | errored m => exact ⟨rfl, fun hcd => FrOutcome.noConfusion hcd⟩

theorem truncated_close_amended_witness :
    (clientRun jsonParse c2chunks).isSuccess = false
      ∧ clientRun jsonParse c2chunks = .noTurn := by
  have hout : (runFramerChunks jsonParse c2chunks).outcome = .closedWithoutDone := rfl
  have h : (runFramerChunks jsonParse c2chunks).outcome ≠ .completed := by
    rw [hout]; exact fun hc => FrOutcome.noConfusion hc
  exact ⟨(truncated_close_amended jsonParse c2chunks h).1,
    (truncated_close_amended jsonParse c2chunks h).2 hout⟩

/-- Claim C9 (code evaluated at the failing input): a stream consisting of
a whitespace-only thinking record followed by done passes the persistence
guard (`fullThinking` is truthy) but the trimmed thinking field is dropped,
so an assistant message with empty content, no images and no thinking is
persisted — violating the invariant.  A done with all accumulators strictly
empty is, by contrast, skipped. -/
theorem empty_turn_persistence_bug :
    clientRun jsonParse c9failChunks = .success [] [] none
      ∧ clientRun jsonParse c9emptyDoneChunks = .noTurn :=
  ⟨rfl, rfl⟩

/-- A comment or blank line never carries the `data: ` marker. -/
theorem isHbLine_not_data (l : List Char) (h : isHbLine l = true) :
    isDataLine l = false := by
  cases l with
  | nil => rfl
  | cons c cs =>
    simp only [isHbLine, List.isEmpty_cons, List.headD_cons, Bool.false_or,
      decide_eq_true_eq] at h
    subst h
    simp [isDataLine, dataMarker, List.take]

/-- With no pending partial record, a heartbeat line is a no-op for the
parser state. -/
theorem processLine_hb (p : ParseFn) (st : FrCore) (l : List Char)
    (hl : isHbLine l = true) (hcur : st.cur = []) :
    processLine p st l = st := by
  unfold processLine
  by_cases hh : st.halt
  · rw [if_pos hh]
  · rw [if_neg hh, isHbLine_not_data l hl]
    simp [hcur]

/-- Processing a line whose payload parses on its own leaves no pending
partial record behind. -/
theorem processLine_ok_cur (p : ParseFn) (st : FrCore) (l : List Char)
    (hok : lineOkB p l = true) (hcur : st.cur = []) :
    (processLine p st l).cur = [] := by
  unfold processLine
  by_cases hh : st.halt
  · rw [if_pos hh]; exact hcur
  · rw [if_neg hh]
    by_cases hd : isDataLine l
    · rw [if_pos hd]
      unfold processDataLine
      simp only [lineOkB, hd, Bool.not_true, Bool.false_or] at hok
      cases hp : p (st.cur ++ l.drop 6) with
      | ok j =>
        simp only [hp]
        unfold handleParsedRecord
        by_cases h1 : truthyO (jGet j keyDone) <;> by_cases h2 : truthyO (jGet j keyError) <;>
          simp [h1, h2]
      | fail r m =>
        rw [hcur] at hp
        simp only [List.nil_append] at hp
        rw [hp] at hok
        exact absurd hok (by simp [ParseOutcome.isOk])
    · rw [if_neg hd]
      simp [hcur]

/-- Claim C8: inserting any number of comment-style heartbeat lines (or the
blank lines their writes contribute) at any positions into a line sequence
whose `data:` records each parse on their own leaves the parser state —
events, pending buffer and completion flag — unchanged, starting from any
state with no pending partial record. -/
theorem heartbeat_insertion_invariance (p : ParseFn) (ls ls2 : List (List Char))
    (hwf : ∀ l ∈ ls, lineOkB p l = true) (hins : HbInsert ls ls2) :
    ∀ st : FrCore, st.cur = [] → processLines p st ls2 = processLines p st ls := by
  induction hins with
  | nil => intro st _; rfl
  | keep l hrec ih =>
    intro st hcur
    have hok : lineOkB p l = true := hwf l (List.mem_cons_self l _)
    have hwf2 : ∀ x ∈ _, lineOkB p x = true := fun x hx => hwf x (List.mem_cons_of_mem l hx)
    show processLines p (processLine p st l) _ = processLines p (processLine p st l) _
    exact ih hwf2 (processLine p st l) (processLine_ok_cur p st l hok hcur)
  | ins hline hhb hrec ih =>
    intro st hcur
    show processLines p (processLine p st hline) _ = _
    rw [processLine_hb p st hline hhb hcur]
    exact ih hwf st hcur

theorem heartbeat_insertion_invariance_witness :
    processLines jsonParse initCore c8insLines = processLines jsonParse initCore c8baseLines := by
  have hins : HbInsert c8baseLines c8insLines :=
    .ins (heartbeatLine 123) (by decide)
      (.ins [] (by decide)
        (.keep _ (.ins (heartbeatLine 456) (by decide)
          (.keep _ (.keep _ (.keep _ (.ins (heartbeatLine 789) (by decide) .nil)))))))
  exact heartbeat_insertion_invariance jsonParse c8baseLines c8insLines
    (by decide) hins initCore rfl

/-- Folding the relay's collection step over thinking-tagged images keeps
only the last of them (and evicts any thinking images already in the
accumulator). -/
theorem foldl_collect_thinkingMap (thinks : List BImg) :
    ∀ acc : List (BImg × Bool),
      List.foldl collectStep acc (thinks.map (fun i => (i, true)))
        = if thinks.isEmpty then acc
          else acc.filter (fun ib => !ib.snd) ++ [(thinks.getLast?.getD ⟨[], []⟩, true)] := by
  induction thinks with
  | nil => intro acc; simp
  | cons i rest ih =>
    intro acc
    rw [List.map_cons, List.foldl_cons, ih]
    cases rest with
    | nil => simp [collectStep]
    | cons j rest2 =>
      simp [collectStep, List.filter_append, List.filter_filter, List.getLast?_cons_cons]

/-- With at least one non-thinking (final) image collected after the
thinking ones, the relay sends exactly the final image. -/
theorem imagesToSend_thinks_final (thinks : List BImg) (f : BImg) :
    imagesToSend (collectImages (thinks.map (fun i => (i, true)) ++ [(f, false)])) = [f] := by
  unfold collectImages
  rw [List.foldl_append, foldl_collect_thinkingMap]
  cases thinks with
  | nil => simp [collectStep, imagesToSend]
  | cons i rest =>
    simp [collectStep, imagesToSend, List.filter_append, List.filter_filter]

/-- With only thinking-tagged images, the relay sends exactly the last of
them. -/
theorem imagesToSend_thinks_only (pre : List BImg) (lastI : BImg) :
    imagesToSend (collectImages ((pre ++ [lastI]).map (fun i => (i, true)))) = [lastI] := by
  unfold collectImages
  rw [foldl_collect_thinkingMap]
  simp [imagesToSend]

/-- The client image callback keeps a payload whose data and mime type are
non-empty. -/
theorem clientImages_single (i : BImg) (hd : i.data ≠ []) (hm : i.mime ≠ []) :
    clientImages [imagePayload i] = [imagePayload i] := by
  have hd2 : i.data.isEmpty = false := by
    cases h2 : i.data with
    | nil => exact absurd h2 hd
    | cons a l => rfl
  have hm2 : i.mime.isEmpty = false := by
    cases h2 : i.mime with
    | nil => exact absurd h2 hm
    | cons a l => rfl
  show (if truthyO (jGet (imagePayload i) keyData) && truthyO (jGet (imagePayload i) keyMimeType)
      then ([] : List Json) ++ [imagePayload i] else []) = [imagePayload i]
  have e1 : truthyO (jGet (imagePayload i) keyData) = !i.data.isEmpty := rfl
  have e2 : truthyO (jGet (imagePayload i) keyMimeType) = !i.mime.isEmpty := rfl
  rw [e1, e2, hd2, hm2]
  simp

/-- Claim C3: for a streamed response with any number of thinking-tagged
images followed by one final non-thinking image, the relay sends exactly
the final image and the assembled turn holds exactly that one image; with
only thinking-tagged images, the relay sends exactly the last of them and
the assembled turn holds exactly that one. -/
theorem image_dedup_last_wins :
    (∀ (thinks : List BImg) (f : BImg), f.data ≠ [] → f.mime ≠ [] →
      imagesToSend (collectImages (thinks.map (fun i => (i, true)) ++ [(f, false)])) = [f]
        ∧ clientImages
            ((imagesToSend (collectImages (thinks.map (fun i => (i, true)) ++ [(f, false)]))).map imagePayload)
          = [imagePayload f])
    ∧ ∀ (pre : List BImg) (lastI : BImg), lastI.data ≠ [] → lastI.mime ≠ [] →
        imagesToSend (collectImages ((pre ++ [lastI]).map (fun i => (i, true)))) = [lastI]
          ∧ clientImages
              ((imagesToSend (collectImages ((pre ++ [lastI]).map (fun i => (i, true))))).map imagePayload)
            = [imagePayload lastI] := by
  constructor
  · intro thinks f hd hm
    refine ⟨imagesToSend_thinks_final thinks f, ?_⟩
    rw [imagesToSend_thinks_final thinks f]
    exact clientImages_single f hd hm
  · intro pre lastI hd hm
    refine ⟨imagesToSend_thinks_only pre lastI, ?_⟩
    rw [imagesToSend_thinks_only pre lastI]
    exact clientImages_single lastI hd hm

/-- Cleanup keeps every timestamp still inside the window. -/
theorem cleanExpired_all (now : Nat) (l : List Nat) (h : ∀ t ∈ l, now - t < WINDOW_MS) :
    cleanExpired now l = l := by
  unfold cleanExpired
  exact List.filter_eq_self.mpr (fun t ht => by simpa using h t ht)

/-- One failed login while under the limit appends exactly one timestamp. -/
theorem failedLoginAt_under (att : List Nat) (t : Nat)
    (h : ∀ x ∈ att, t - x < WINDOW_MS) (hlen : att.length < MAX_ATTEMPTS) :
    failedLoginAt att t = att ++ [t] := by
  unfold failedLoginAt loginModel
  rw [cleanExpired_all t att h]
  rw [if_neg (by omega)]
  simp

/-- Claim C5: after five failed login attempts inside the ten-minute
window, a sixth attempt with correct credentials is refused with a
rate-limited response carrying a positive retry-after value computed from
the oldest retained attempt; and any successful login leaves the failure
list empty. -/
theorem login_rate_limit (t1 t2 t3 t4 t5 now : Nat)
    (h12 : t1 ≤ t2) (h23 : t2 ≤ t3) (h34 : t3 ≤ t4) (h45 : t4 ≤ t5) (h5n : t5 ≤ now)
    (hwin : now - t1 < WINDOW_MS) :
    List.foldl failedLoginAt [] [t1, t2, t3, t4, t5] = [t1, t2, t3, t4, t5]
      ∧ (loginModel [t1, t2, t3, t4, t5] now true true true true).result
          = .rateLimited ((WINDOW_MS - (now - t1) + 999) / 1000)
      ∧ 1 ≤ (WINDOW_MS - (now - t1) + 999) / 1000
      ∧ ∀ (att2 : List Nat) (now2 : Nat) (hn hp uf pv : Bool),
          (loginModel att2 now2 hn hp uf pv).result = .success →
          (loginModel att2 now2 hn hp uf pv).attempts = [] := by
  have hW : WINDOW_MS = 600000 := rfl
  have e1 : failedLoginAt [] t1 = [t1] :=
    failedLoginAt_under [] t1 (by intro x hx; simp at hx) (by simp [MAX_ATTEMPTS])
  have e2 : failedLoginAt [t1] t2 = [t1, t2] := by
    have := failedLoginAt_under [t1] t2 (by intro x hx; simp at hx; omega) (by simp [MAX_ATTEMPTS])
    simpa using this
  have e3 : failedLoginAt [t1, t2] t3 = [t1, t2, t3] := by
    have := failedLoginAt_under [t1, t2] t3
      (by intro x hx; simp at hx; rcases hx with h | h <;> omega) (by simp [MAX_ATTEMPTS])
    simpa using this
  have e4 : failedLoginAt [t1, t2, t3] t4 = [t1, t2, t3, t4] := by
    have := failedLoginAt_under [t1, t2, t3] t4
      (by intro x hx; simp at hx; rcases hx with h | h | h <;> omega) (by simp [MAX_ATTEMPTS])
    simpa using this
  have e5 : failedLoginAt [t1, t2, t3, t4] t5 = [t1, t2, t3, t4, t5] := by
    have := failedLoginAt_under [t1, t2, t3, t4] t5
      (by intro x hx; simp at hx; rcases hx with h | h | h | h <;> omega) (by simp [MAX_ATTEMPTS])
    simpa using this
  have hclean : cleanExpired now [t1, t2, t3, t4, t5] = [t1, t2, t3, t4, t5] :=
    cleanExpired_all now _ (by intro x hx; simp at hx; rcases hx with h | h | h | h | h <;> omega)
  refine ⟨?_, ?_, ?_, ?_⟩
  · simp only [List.foldl_cons, List.foldl_nil, e1, e2, e3, e4, e5]
  · unfold loginModel
    rw [hclean]
    rw [if_pos (by simp [MAX_ATTEMPTS])]
    rfl
  · omega
  · intro att2 now2 hn hp uf pv hres
    unfold loginModel at hres ⊢
    by_cases h1 : MAX_ATTEMPTS ≤ (cleanExpired now2 att2).length
    · rw [if_pos h1] at hres ⊢
      exact absurd hres (by simp)
    · rw [if_neg h1] at hres ⊢
      by_cases h2 : (!hn || !hp) = true
      · rw [if_pos h2] at hres ⊢
        exact absurd hres (by simp)
      · rw [if_neg h2] at hres ⊢
        by_cases h3 : (!uf) = true
        · rw [if_pos h3] at hres ⊢
          exact absurd hres (by simp)
        · rw [if_neg h3] at hres ⊢
          by_cases h4 : (!pv) = true
          · rw [if_pos h4] at hres ⊢
            exact absurd hres (by simp)
          · rw [if_neg h4] at hres ⊢

/-- The eviction loop always ends within the budget. -/
theorem evict_total_le (maxSize : Nat) (l : List Conv) :
    convTotalSize (evict maxSize l) ≤ maxSize := by
  induction l with
  | nil => simp [evict, convTotalSize]
  | cons c rest ih =>
    unfold evict
    by_cases h : convTotalSize (c :: rest) ≤ maxSize
    · rw [if_pos h]; exact h
    · rw [if_neg h]; exact ih

/-- The eviction loop removes exactly the shortest over-budget front: the
result is the longest suffix whose total fits. -/
theorem evict_is_minimal_drop (maxSize : Nat) (l : List Conv) :
    ∃ k, evict maxSize l = l.drop k
      ∧ ∀ j < k, maxSize < convTotalSize (l.drop j) := by
  induction l with
  | nil => exact ⟨0, rfl, fun j hj => absurd hj (Nat.not_lt_zero j)⟩
  | cons c rest ih =>
    unfold evict
    by_cases h : convTotalSize (c :: rest) ≤ maxSize
    · rw [if_pos h]
      exact ⟨0, rfl, fun j hj => absurd hj (Nat.not_lt_zero j)⟩
    · rw [if_neg h]
      obtain ⟨k, hk, hj⟩ := ih
      refine ⟨k + 1, by simpa using hk, fun j hjk => ?_⟩
      cases j with
      | zero => simpa using Nat.lt_of_not_le h
      | succ j2 => simpa using hj j2 (Nat.lt_of_succ_lt_succ hjk)

/-- Claim C6: when the saved conversation set exceeds the storage budget,
the completed save leaves a stored set whose total size is within the
budget, and the survivors are exactly the longest budget-fitting suffix of
the set sorted by ascending `updatedAt` — i.e. the most-recently-updated
subset that fits, obtained by evicting oldest-updated first. -/
theorem store_eviction_budget (convs : List Conv)
    (hover : MAX_STORAGE < convTotalSize convs) :
    convTotalSize (saveConversationsModel convs) ≤ MAX_STORAGE
      ∧ (sortByUpdatedAsc convs).Sorted (fun a b => a.updatedAt ≤ b.updatedAt)
      ∧ (sortByUpdatedAsc convs).Perm convs
      ∧ ∃ k, saveConversationsModel convs = (sortByUpdatedAsc convs).drop k
          ∧ ∀ j < k, MAX_STORAGE < convTotalSize ((sortByUpdatedAsc convs).drop j) := by
  have hmodel : saveConversationsModel convs = evict MAX_STORAGE (sortByUpdatedAsc convs) := by
    unfold saveConversationsModel
    rw [if_pos hover]
  refine ⟨?_, ?_, ?_, ?_⟩
  · rw [hmodel]; exact evict_total_le MAX_STORAGE (sortByUpdatedAsc convs)
  · exact List.sorted_insertionSort (fun a b => a.updatedAt ≤ b.updatedAt) convs
  · exact List.perm_insertionSort (fun a b => a.updatedAt ≤ b.updatedAt) convs
  · rw [hmodel]; exact evict_is_minimal_drop MAX_STORAGE (sortByUpdatedAsc convs)

theorem store_eviction_budget_witness :
    convTotalSize (saveConversationsModel [⟨1, 10, 62914560⟩, ⟨2, 20, 62914560⟩]) ≤ MAX_STORAGE
      ∧ ∃ k, saveConversationsModel [⟨1, 10, 62914560⟩, ⟨2, 20, 62914560⟩]
            = (sortByUpdatedAsc [⟨1, 10, 62914560⟩, ⟨2, 20, 62914560⟩]).drop k
          ∧ ∀ j < k, MAX_STORAGE
              < convTotalSize ((sortByUpdatedAsc [⟨1, 10, 62914560⟩, ⟨2, 20, 62914560⟩]).drop j) := by
  have h := store_eviction_budget [⟨1, 10, 62914560⟩, ⟨2, 20, 62914560⟩] (by decide)
  exact ⟨h.1, h.2.2.2⟩

/-- Claim C7 (counterexample): a request whose upstream answers its headers
immediately but streams its body for ten minutes completes as an ordinary
streamed response — the five-minute budget is exceeded without any Timeout
error being emitted, because the guard timer is cleared as soon as the
upstream headers arrive. -/
theorem proxy_timeout_counterexample :
    proxyPost ⟨0, true, 200, 600000⟩ = .streamed 600000
      ∧ REQUEST_TIMEOUT < 600000 := by
  exact ⟨rfl, by decide⟩

/-- Claim C7 (amended): the relay's five-minute timer only guards the wait
for upstream response headers — if they do not arrive in time the fetch is
aborted and the relay answers with an HTTP 504 JSON error (not a protocol
Error event); once headers have arrived the timer is cleared and the body
streams to completion regardless of its duration. -/
theorem proxy_timeout_scope_amended (u : UpstreamBehavior) :
    (REQUEST_TIMEOUT ≤ u.headersDelayMs → proxyPost u = .httpJsonError 504)
      ∧ (u.headersDelayMs < REQUEST_TIMEOUT → u.ok = true →
          proxyPost u = .streamed (u.headersDelayMs + u.bodyDurationMs)) := by
  constructor
  · intro h
    unfold proxyPost
    rw [if_pos h]
  · intro h hok
    unfold proxyPost
    rw [if_neg (by omega), hok]
    rfl

theorem proxy_timeout_scope_amended_witness :
    proxyPost ⟨300000, true, 200, 0⟩ = .httpJsonError 504
      ∧ proxyPost ⟨1000, true, 200, 900000⟩ = .streamed 901000 :=
  ⟨(proxy_timeout_scope_amended ⟨300000, true, 200, 0⟩).1 (by decide),
    (proxy_timeout_scope_amended ⟨1000, true, 200, 900000⟩).2 (by decide) rfl⟩

/-- Lengths are preserved by the in-place edit. -/
theorem handleEditMessage_length (msgs : List Msg) (k : Nat) (c : List Char)
    (imgs : List ImgData) : (handleEditMessage msgs k c imgs).length = msgs.length := by
  unfold handleEditMessage
  split
  · split
    · exact List.length_set msgs k _
    · rfl
  · rfl

/-- Claim C4: editing the user message at index `k` first truncates the
transcript to exactly the first `k+1` messages, issues the regeneration
request with only the messages before index `k` as history and the trimmed
edited content as the prompt, and — whatever the generation outcome — the
truncation stands (the final transcript starts with the truncated, edited
prefix); a failed regeneration appends the error message as the next
turn. -/
theorem edit_truncate_regenerate (msgs : List Msg) (k : Nat) (c : List Char)
    (imgs : List ImgData) (out : GenOutcome) (m : Msg)
    (hk : msgs.get? k = some m) (hu : m.role = .user) :
    (editResend msgs k c imgs out).afterTruncate = msgs.take (k + 1)
      ∧ (editResend msgs k c imgs out).afterTruncate.length = k + 1
      ∧ (editResend msgs k c imgs out).requestHistory = msgs.take k
      ∧ (editResend msgs k c imgs out).requestPrompt = trimChars c
      ∧ (editResend msgs k c imgs out).finalTranscript.take (k + 1)
          = (editResend msgs k c imgs out).afterEdit
      ∧ ∀ em, out = .failed em →
          (editResend msgs k c imgs out).finalTranscript
            = (editResend msgs k c imgs out).afterEdit ++ [errMsgOf em] := by
  have hklen : k < msgs.length := List.get?_eq_some.mp hk |>.1
  have hlen1 : (msgs.take (k + 1)).length = k + 1 := by
    rw [List.length_take]
    omega
  have hlen2 : (handleEditMessage (msgs.take (k + 1)) k (trimChars c) imgs).length = k + 1 := by
    rw [handleEditMessage_length, hlen1]
  refine ⟨rfl, hlen1, rfl, rfl, ?_, ?_⟩
  · cases out with
    | completed mo =>
      cases mo with
      | some m2 =>
        show ((handleEditMessage (msgs.take (k + 1)) k (trimChars c) imgs) ++ [m2]).take (k + 1)
            = handleEditMessage (msgs.take (k + 1)) k (trimChars c) imgs
        exact List.take_left' hlen2
      | none =>
        show (handleEditMessage (msgs.take (k + 1)) k (trimChars c) imgs).take (k + 1)
            = handleEditMessage (msgs.take (k + 1)) k (trimChars c) imgs
        exact List.take_of_length_le (by omega)
    | failed em =>
      show ((handleEditMessage (msgs.take (k + 1)) k (trimChars c) imgs) ++ [errMsgOf em]).take (k + 1)
          = handleEditMessage (msgs.take (k + 1)) k (trimChars c) imgs
      exact List.take_left' hlen2
  · intro em hout
    subst hout
    rfl

/-- Claim C10: whenever a prompt is submitted in a conversation, the action
trace begins — for every possible generation outcome — with appending the
user message (attachments converted to base64 image entries), initiating
the conversation save, and only then issuing the streaming request; the
saved conversation set already contains the user turn in the current
conversation's transcript. -/
theorem user_turn_saved_before_request (st : PgState) (now : Nat) (prompt : List Char)
    (files : List FileAtt) (out : GenOutcome) (cid : Nat) (conv : ConvRec)
    (hcid : st.currentId = some cid)
    (hp : (trimChars prompt).isEmpty = false)
    (hconv : conv ∈ st.conversations) (hid : conv.id = cid) :
    (∃ rest, handleSubmitTrace st now prompt files out
        = Act.append (submitUserMsg prompt files)
          :: Act.persist (updateConvs st.conversations cid (submitUserMsg prompt files)
                (st.messages ++ [submitUserMsg prompt files]) now)
          :: Act.issueStreamRequest (trimChars prompt) st.messages :: rest)
      ∧ ∃ c2 ∈ updateConvs st.conversations cid (submitUserMsg prompt files)
            (st.messages ++ [submitUserMsg prompt files]) now,
          c2.id = cid ∧ c2.messages = st.messages ++ [submitUserMsg prompt files] := by
  constructor
  · unfold handleSubmitTrace
    rw [hp]
    unfold handleMessageSentActs
    rw [hcid]
    simp only [Bool.false_eq_true, if_false]
    exact ⟨_, rfl⟩
  · refine ⟨{ conv with
        messages := st.messages ++ [submitUserMsg prompt files]
        updatedAt := now
        title :=
          if conv.messages.length = 0 && (submitUserMsg prompt files).role = .user then
            if ((submitUserMsg prompt files).content.take 30).isEmpty then ("新会话").data
            else (submitUserMsg prompt files).content.take 30
          else conv.title }, ?_, hid, rfl⟩
    unfold updateConvs
    have : conv.id = cid := hid
    refine List.mem_map.mpr ⟨conv, hconv, ?_⟩
    rw [if_pos this]

theorem user_turn_saved_before_request_witness :
    (∃ rest,
        handleSubmitTrace ⟨[⟨7, ("t").data, 0, 0, []⟩], some 7, []⟩ 1 (("hi").data) [] (.completed none)
          = Act.append (submitUserMsg (("hi").data) [])
            :: Act.persist (updateConvs [⟨7, ("t").data, 0, 0, []⟩] 7 (submitUserMsg (("hi").data) [])
                  ([] ++ [submitUserMsg (("hi").data) []]) 1)
            :: Act.issueStreamRequest (trimChars (("hi").data)) [] :: rest)
      ∧ ∃ c2 ∈ updateConvs [⟨7, ("t").data, 0, 0, []⟩] 7 (submitUserMsg (("hi").data) [])
            ([] ++ [submitUserMsg (("hi").data) []]) 1,
          c2.id = 7 ∧ c2.messages = [] ++ [submitUserMsg (("hi").data) []] :=
  user_turn_saved_before_request ⟨[⟨7, ("t").data, 0, 0, []⟩], some 7, []⟩ 1 (("hi").data) []
    (.completed none) 7 ⟨7, ("t").data, 0, 0, []⟩ rfl rfl (List.mem_singleton.mpr rfl) rfl

theorem edit_truncate_regenerate_witness :
    (editResend [⟨.user, ("a").data, [], none⟩, ⟨.assistant, ("b").data, [], none⟩,
        ⟨.user, ("x").data, [], none⟩] 0 (" c ").data [] (.failed ("boom").data)).afterTruncate
        = [⟨.user, ("a").data, [], none⟩]
      ∧ (editResend [⟨.user, ("a").data, [], none⟩, ⟨.assistant, ("b").data, [], none⟩,
          ⟨.user, ("x").data, [], none⟩] 0 (" c ").data [] (.failed ("boom").data)).requestPrompt
        = trimChars ((" c ").data)
      ∧ (editResend [⟨.user, ("a").data, [], none⟩, ⟨.assistant, ("b").data, [], none⟩,
          ⟨.user, ("x").data, [], none⟩] 0 (" c ").data [] (.failed ("boom").data)).finalTranscript
        = (editResend [⟨.user, ("a").data, [], none⟩, ⟨.assistant, ("b").data, [], none⟩,
            ⟨.user, ("x").data, [], none⟩] 0 (" c ").data [] (.failed ("boom").data)).afterEdit
          ++ [errMsgOf (("boom").data)] := by
  have h := edit_truncate_regenerate
    [⟨.user, ("a").data, [], none⟩, ⟨.assistant, ("b").data, [], none⟩,
      ⟨.user, ("x").data, [], none⟩] 0 ((" c ").data) [] (.failed ("boom").data)
    ⟨.user, ("a").data, [], none⟩ rfl rfl
  exact ⟨h.1, h.2.2.2.1, h.2.2.2.2.2 (("boom").data) rfl⟩

theorem login_rate_limit_witness :
    List.foldl failedLoginAt [] [0, 1, 2, 3, 4] = [0, 1, 2, 3, 4]
      ∧ (loginModel [0, 1, 2, 3, 4] 5 true true true true).result
          = .rateLimited ((WINDOW_MS - (5 - 0) + 999) / 1000)
      ∧ 1 ≤ (WINDOW_MS - (5 - 0) + 999) / 1000 := by
  have h := login_rate_limit 0 1 2 3 4 5 (by decide) (by decide) (by decide) (by decide)
    (by decide) (by decide)
  exact ⟨h.1, h.2.1, h.2.2.1⟩

theorem image_dedup_last_wins_witness :
    (imagesToSend (collectImages ([imgA, imgB].map (fun i => (i, true)) ++ [(imgC, false)]))
      = [imgC])
    ∧ imagesToSend (collectImages (([imgA] ++ [imgB]).map (fun i => (i, true)))) = [imgB] :=
  ⟨(image_dedup_last_wins.1 [imgA, imgB] imgC (by decide) (by decide)).1,
    (image_dedup_last_wins.2 [imgA] imgB (by decide) (by decide)).1⟩

end AITools
